import Mathlib

/-!
Verification of `src/prefect/_internal/concurrency/timeouts.py`.

The file embeds the `CancelContext` cancellation-token state machine and the
pure decision logic of the timeout enforcers (`cancel_async_at`,
`cancel_sync_at`, `_alarm_based_timeout`, `_watcher_thread_based_timeout`)
as executable Lean definitions, and proves the specified properties.

Modelling conventions:
- A token is identified by a natural number; a state `St` maps every
  identifier to its `CancelContext` record.  The Python object graph
  (the `_chained` lists hold references to other tokens) becomes a list
  of identifiers.
- `mark_cancelled` recurses through `_chained`; on a cyclic chain graph the
  Python original deadlocks on its non-reentrant lock, so the recursion is
  bounded by an explicit `fuel` parameter that limits the cascade depth.
  For every acyclic graph a large enough `fuel` reproduces the Python
  behaviour exactly; the token at the call site and its direct children are
  processed at any fuel.
- Clock instants and durations are rationals; the Python floats enter the
  claims only through comparisons, subtraction and `max`, which the claims
  quantify over exactly.
- The side-effecting `_cancel` callback leaves the token state untouched,
  so `cancel()` acts on the state exactly as `mark_cancelled()`.
-/

namespace Timeouts

/-- The mutable per-token state of `CancelContext` (timeouts.py lines 34-43):
`_timeout`, `_deadline`, `_cancelled`, `_completed` and `_chained`
(child references become identifiers). -/
@[ext]
structure CancelContext where
  timeout : Option ℚ
  deadline : Option ℚ
  cancelled : Bool
  completed : Bool
  chained : List Nat
  deriving DecidableEq, Repr

/-- A freshly constructed token: both flags false, no chained children. -/
def CancelContext.fresh : CancelContext :=
  { timeout := none, deadline := none, cancelled := false, completed := false,
    chained := [] }

/-- The global token state: every identifier carries a token record. -/
abbrev St := Nat → CancelContext

/-- Replace the token stored at identifier `i`. -/
def setCtx (s : St) (i : Nat) (c : CancelContext) : St :=
  fun j => if j = i then c else s j

/-- The initial state: every token is fresh. -/
def initSt : St := fun _ => CancelContext.fresh

/-- The cascade loop of `CancelContext.mark_cancelled` (lines 73-74):
`for ctx in self._chained: ctx.mark_cancelled()`.  Each identifier in the
list receives a `mark_cancelled` call: if its token is completed the call
refuses and changes nothing; otherwise its `cancelled` flag is set and,
while fuel remains, the cascade recurses into its own chained list. -/
def cancelCascade : Nat → St → List Nat → St
  | 0, s, ids =>
      ids.foldl
        (fun t i =>
          if (t i).completed then t
          else setCtx t i { t i with cancelled := true }) s
  | fuel + 1, s, ids =>
      ids.foldl
        (fun t i =>
          if (t i).completed then t
          else cancelCascade fuel
            (setCtx t i { t i with cancelled := true }) (t i).chained) s

/-- The treatment of one identifier inside the cascade loop: one
`mark_cancelled` call on that token, with the remaining fuel bounding how
deep its own cascade may go. -/
def cascadeStep (fuel : Nat) (t : St) (i : Nat) : St :=
  if (t i).completed then t
  else
    match fuel with
    | 0 => setCtx t i { t i with cancelled := true }
    | f + 1 =>
        cancelCascade f (setCtx t i { t i with cancelled := true }) (t i).chained

/-- `CancelContext.mark_cancelled` (lines 66-76): under the lock, refuse if
already completed; otherwise set `cancelled`, cascade to every chained
child, and report success. -/
def mark_cancelled (fuel : Nat) (s : St) (i : Nat) : St × Bool :=
  if (s i).completed then (s, false)
  else
    (cancelCascade fuel (setCtx s i { s i with cancelled := true }) (s i).chained,
     true)

/-- `CancelContext.mark_completed` (lines 78-85): under the lock, refuse if
already cancelled; otherwise set `completed` and report success. -/
def mark_completed (s : St) (i : Nat) : St × Bool :=
  if (s i).cancelled then (s, false)
  else (setCtx s i { s i with completed := true }, true)

/-- `CancelContext.chain` (lines 87-99): if this token is already cancelled,
mark the given token cancelled immediately; otherwise append it to the
chained list. -/
def chain (fuel : Nat) (s : St) (p c : Nat) : St :=
  if (s p).cancelled then (mark_cancelled fuel s c).1
  else setCtx s p { s p with chained := (s p).chained ++ [c] }

/-- `CancelContext.cancel` (lines 53-56): when `mark_cancelled` succeeds it
invokes the `_cancel` callback, which does not touch the token state, so on
the state the operation acts exactly as `mark_cancelled`. -/
def cancel (fuel : Nat) (s : St) (i : Nat) : St :=
  (mark_cancelled fuel s i).1

/-- One operation on the shared token state. -/
inductive Op where
  | markCancelled (i : Nat)
  | markCompleted (i : Nat)
  | cancelOp (i : Nat)
  | chainOp (p c : Nat)
  deriving DecidableEq, Repr

/-- Apply one operation to the state. -/
def applyOp (fuel : Nat) (s : St) : Op → St
  | Op.markCancelled i => (mark_cancelled fuel s i).1
  | Op.markCompleted i => (mark_completed s i).1
  | Op.cancelOp i => cancel fuel s i
  | Op.chainOp p c => chain fuel s p c

/-- Run a sequence of operations from a given state. -/
def run (fuel : Nat) (s : St) (ops : List Op) : St :=
  ops.foldl (applyOp fuel) s

/-! ### Branch equations for the operations -/

theorem mark_cancelled_completed (fuel : Nat) (s : St) (i : Nat)
    (h : (s i).completed = true) : mark_cancelled fuel s i = (s, false) := by
  unfold mark_cancelled
  rw [if_pos h]

theorem mark_cancelled_active (fuel : Nat) (s : St) (i : Nat)
    (h : ¬(s i).completed = true) :
    mark_cancelled fuel s i =
      (cancelCascade fuel (setCtx s i { s i with cancelled := true })
        (s i).chained, true) := by
  unfold mark_cancelled
  rw [if_neg h]

theorem mark_completed_cancelled (s : St) (i : Nat)
    (h : (s i).cancelled = true) : mark_completed s i = (s, false) := by
  unfold mark_completed
  rw [if_pos h]

theorem mark_completed_active (s : St) (i : Nat)
    (h : ¬(s i).cancelled = true) :
    mark_completed s i = (setCtx s i { s i with completed := true }, true) := by
  unfold mark_completed
  rw [if_neg h]

theorem mark_completed_fst_cancelled (s : St) (i : Nat)
    (h : (s i).cancelled = true) : (mark_completed s i).1 = s := by
  rw [mark_completed_cancelled s i h]

theorem mark_completed_fst_active (s : St) (i : Nat)
    (h : ¬(s i).cancelled = true) :
    (mark_completed s i).1 = setCtx s i { s i with completed := true } := by
  rw [mark_completed_active s i h]

theorem mark_cancelled_fst_active (fuel : Nat) (s : St) (i : Nat)
    (h : ¬(s i).completed = true) :
    (mark_cancelled fuel s i).1 =
      cancelCascade fuel (setCtx s i { s i with cancelled := true })
        (s i).chained := by
  rw [mark_cancelled_active fuel s i h]

theorem mark_cancelled_snd_active (fuel : Nat) (s : St) (i : Nat)
    (h : ¬(s i).completed = true) : (mark_cancelled fuel s i).2 = true := by
  rw [mark_cancelled_active fuel s i h]

theorem mark_completed_snd_active (s : St) (i : Nat)
    (h : ¬(s i).cancelled = true) : (mark_completed s i).2 = true := by
  rw [mark_completed_active s i h]

theorem chain_parent_cancelled (fuel : Nat) (s : St) (p c : Nat)
    (h : (s p).cancelled = true) :
    chain fuel s p c = (mark_cancelled fuel s c).1 := by
  unfold chain
  rw [if_pos h]

theorem chain_parent_active (fuel : Nat) (s : St) (p c : Nat)
    (h : ¬(s p).cancelled = true) :
    chain fuel s p c = setCtx s p { s p with chained := (s p).chained ++ [c] } := by
  unfold chain
  rw [if_neg h]

/-! ### Basic unfolding lemmas for the cascade -/

theorem cc_nil (fuel : Nat) (s : St) : cancelCascade fuel s [] = s := by
  cases fuel <;> rfl

theorem cc_cons (fuel : Nat) (s : St) (i : Nat) (rest : List Nat) :
    cancelCascade fuel s (i :: rest) =
      cancelCascade fuel (cascadeStep fuel s i) rest := by
  cases fuel <;> rfl

theorem setCtx_same (s : St) (i : Nat) (c : CancelContext) : setCtx s i c i = c := by
  simp [setCtx]

theorem setCtx_other (s : St) (i : Nat) (c : CancelContext) (j : Nat) (h : j ≠ i) :
    setCtx s i c j = s j := by
  simp [setCtx, h]

theorem setCtx_self (s : St) (i : Nat) : setCtx s i (s i) = s := by
  funext j
  by_cases h : j = i
  · subst h; simp [setCtx]
  · simp [setCtx, h]

theorem ctx_set_cancelled_self {c : CancelContext} (h : c.cancelled = true) :
    { c with cancelled := true } = c := by
  cases c
  simp_all

/-! ### Evolution order on token states

Every state produced from `s` by a cascade agrees with `s` on every field
except `cancelled`, which can only go from `false` to `true`, and is only
set on tokens that were not completed. -/

/-- How one token may evolve under a cascade: all fields except `cancelled`
are fixed, `cancelled` is monotone, and a newly set `cancelled` implies the
token was not completed. -/
structure CtxLe (a b : CancelContext) : Prop where
  timeout_eq : b.timeout = a.timeout
  deadline_eq : b.deadline = a.deadline
  completed_eq : b.completed = a.completed
  chained_eq : b.chained = a.chained
  cancelled_mono : a.cancelled = true → b.cancelled = true
  cancelled_src : b.cancelled = true → a.cancelled = true ∨ a.completed = false

/-- Pointwise lift of `CtxLe` to whole states. -/
def StLe (s t : St) : Prop := ∀ j, CtxLe (s j) (t j)

theorem ctxLe_refl (a : CancelContext) : CtxLe a a :=
  ⟨rfl, rfl, rfl, rfl, fun h => h, fun h => Or.inl h⟩

theorem ctxLe_trans {a b c : CancelContext} (h1 : CtxLe a b) (h2 : CtxLe b c) :
    CtxLe a c := by
  refine ⟨h2.timeout_eq.trans h1.timeout_eq, h2.deadline_eq.trans h1.deadline_eq,
    h2.completed_eq.trans h1.completed_eq, h2.chained_eq.trans h1.chained_eq,
    fun h => h2.cancelled_mono (h1.cancelled_mono h), fun h => ?_⟩
  rcases h2.cancelled_src h with hb | hb
  · exact h1.cancelled_src hb
  · rw [h1.completed_eq] at hb
    exact Or.inr hb

theorem stLe_refl (s : St) : StLe s s := fun j => ctxLe_refl (s j)

theorem stLe_trans {s t u : St} (h1 : StLe s t) (h2 : StLe t u) : StLe s u :=
  fun j => ctxLe_trans (h1 j) (h2 j)

theorem stLe_setCancelled (s : St) (i : Nat) (h : (s i).completed = false) :
    StLe s (setCtx s i { s i with cancelled := true }) := by
  intro j
  by_cases hj : j = i
  · subst hj
    rw [setCtx_same]
    exact ⟨rfl, rfl, rfl, rfl, fun _ => rfl, fun _ => Or.inr h⟩
  · rw [setCtx_other _ _ _ _ hj]
    exact ctxLe_refl (s j)

theorem stLe_cancelCascade : ∀ (fuel : Nat) (ids : List Nat) (s : St),
    StLe s (cancelCascade fuel s ids) := by
  intro fuel
  induction fuel with
  | zero =>
      intro ids
      induction ids with
      | nil => intro s; rw [cc_nil]; exact stLe_refl s
      | cons i rest ih =>
          intro s
          rw [cc_cons]
          refine stLe_trans ?_ (ih _)
          show StLe s (cascadeStep 0 s i)
          unfold cascadeStep
          by_cases h : (s i).completed = true
          · rw [if_pos h]
            exact stLe_refl s
          · rw [if_neg h]
            exact stLe_setCancelled s i (by simpa using h)
  | succ f ihf =>
      intro ids
      induction ids with
      | nil => intro s; rw [cc_nil]; exact stLe_refl s
      | cons i rest ih =>
          intro s
          rw [cc_cons]
          refine stLe_trans ?_ (ih _)
          show StLe s (cascadeStep (f + 1) s i)
          unfold cascadeStep
          by_cases h : (s i).completed = true
          · rw [if_pos h]
            exact stLe_refl s
          · rw [if_neg h]
            exact stLe_trans (stLe_setCancelled s i (by simpa using h)) (ihf _ _)

theorem stLe_cascadeStep (fuel : Nat) (s : St) (i : Nat) :
    StLe s (cascadeStep fuel s i) := by
  unfold cascadeStep
  by_cases h : (s i).completed = true
  · rw [if_pos h]
    exact stLe_refl s
  · rw [if_neg h]
    cases fuel with
    | zero => exact stLe_setCancelled s i (by simpa using h)
    | succ f =>
        exact stLe_trans (stLe_setCancelled s i (by simpa using h))
          (stLe_cancelCascade f _ _)

/-- A cascade marks every listed token that is not completed. -/
theorem cc_mem_cancelled : ∀ (fuel : Nat) (ids : List Nat) (s : St) (c : Nat),
    c ∈ ids → (s c).completed = false →
    (cancelCascade fuel s ids c).cancelled = true := by
  intro fuel
  induction fuel with
  | zero =>
      intro ids
      induction ids with
      | nil => intro s c hm _; cases hm
      | cons i rest ih =>
          intro s c hm hc
          rw [cc_cons]
          rcases List.mem_cons.mp hm with h | h
          · rw [h] at hc ⊢
            have h1 : (cascadeStep 0 s i i).cancelled = true := by
              unfold cascadeStep
              rw [if_neg (by simp [hc])]
              show ((setCtx s i { s i with cancelled := true }) i).cancelled = true
              rw [setCtx_same]
            exact ((stLe_cancelCascade 0 rest _) i).cancelled_mono h1
          · exact ih _ c h (by rw [((stLe_cascadeStep 0 s i) c).completed_eq, hc])
  | succ f ihf =>
      intro ids
      induction ids with
      | nil => intro s c hm _; cases hm
      | cons i rest ih =>
          intro s c hm hc
          rw [cc_cons]
          rcases List.mem_cons.mp hm with h | h
          · rw [h] at hc ⊢
            have h1 : (cascadeStep (f + 1) s i i).cancelled = true := by
              unfold cascadeStep
              rw [if_neg (by simp [hc])]
              show ((cancelCascade f (setCtx s i { s i with cancelled := true })
                (s i).chained) i).cancelled = true
              have h2 : ((setCtx s i { s i with cancelled := true }) i).cancelled
                  = true := by rw [setCtx_same]
              exact ((stLe_cancelCascade f _ _) i).cancelled_mono h2
            exact ((stLe_cancelCascade (f + 1) rest _) i).cancelled_mono h1
          · exact ih _ c h
              (by rw [((stLe_cascadeStep (f + 1) s i) c).completed_eq, hc])

/-- A completed token is left entirely unchanged by any evolution step. -/
theorem ctxLe_completed_fixed {a b : CancelContext} (h : CtxLe a b)
    (hc : a.completed = true) : b = a := by
  have hcanc : b.cancelled = a.cancelled := by
    cases ha : a.cancelled with
    | true => exact h.cancelled_mono ha
    | false =>
        cases hb : b.cancelled with
        | false => rfl
        | true =>
            rcases h.cancelled_src hb with h1 | h1
            · rw [ha] at h1
              exact h1.symm
            · rw [hc] at h1
              exact absurd h1 (by simp)
  exact CancelContext.ext h.timeout_eq h.deadline_eq hcanc h.completed_eq h.chained_eq

/-- Tokens already completed are untouched by a cascade. -/
theorem cc_completed_fixed (fuel : Nat) (ids : List Nat) (s : St) (j : Nat)
    (hj : (s j).completed = true) : cancelCascade fuel s ids j = s j :=
  ctxLe_completed_fixed ((stLe_cancelCascade fuel ids s) j) hj

/-! ### States on which a cascade has already happened -/

/-- The cascade below a list of identifiers has already happened to the
given depth: every listed token is completed or cancelled, and at positive
depth its own chained list is done one level shallower. -/
def Done : Nat → St → List Nat → Prop
  | 0, s, ids => ∀ j ∈ ids, (s j).completed = true ∨ (s j).cancelled = true
  | fuel + 1, s, ids =>
      ∀ j ∈ ids, (s j).completed = true ∨
        ((s j).cancelled = true ∧ Done fuel s (s j).chained)

theorem done_mono : ∀ (fuel : Nat) {s t : St}, StLe s t →
    ∀ (ids : List Nat), Done fuel s ids → Done fuel t ids := by
  intro fuel
  induction fuel with
  | zero =>
      intro s t hst ids hd j hj
      rcases hd j hj with h | h
      · exact Or.inl (((hst j).completed_eq).trans h)
      · exact Or.inr ((hst j).cancelled_mono h)
  | succ f ih =>
      intro s t hst ids hd j hj
      rcases hd j hj with h | ⟨h1, h2⟩
      · exact Or.inl (((hst j).completed_eq).trans h)
      · refine Or.inr ⟨(hst j).cancelled_mono h1, ?_⟩
        rw [(hst j).chained_eq]
        exact ih hst _ h2

/-- A cascade is the identity on states where it has already happened. -/
theorem cc_done_fix : ∀ (fuel : Nat) (ids : List Nat) (s : St),
    Done fuel s ids → cancelCascade fuel s ids = s := by
  intro fuel
  induction fuel with
  | zero =>
      intro ids
      induction ids with
      | nil => intro s _; rw [cc_nil]
      | cons i rest ih =>
          intro s hd
          rw [cc_cons]
          have hstep : cascadeStep 0 s i = s := by
            unfold cascadeStep
            rcases hd i (List.mem_cons_self i rest) with h | h
            · rw [if_pos h]
            · by_cases hcomp : (s i).completed = true
              · rw [if_pos hcomp]
              · rw [if_neg hcomp]
                show setCtx s i { s i with cancelled := true } = s
                rw [ctx_set_cancelled_self h, setCtx_self]
          rw [hstep]
          exact ih s (fun j hj => hd j (List.mem_cons_of_mem i hj))
  | succ f ihf =>
      intro ids
      induction ids with
      | nil => intro s _; rw [cc_nil]
      | cons i rest ih =>
          intro s hd
          rw [cc_cons]
          have hstep : cascadeStep (f + 1) s i = s := by
            unfold cascadeStep
            rcases hd i (List.mem_cons_self i rest) with h | ⟨h1, h2⟩
            · rw [if_pos h]
            · by_cases hcomp : (s i).completed = true
              · rw [if_pos hcomp]
              · rw [if_neg hcomp]
                show cancelCascade f
                  (setCtx s i { s i with cancelled := true }) (s i).chained = s
                rw [ctx_set_cancelled_self h1, setCtx_self]
                exact ihf _ s h2
          rw [hstep]
          exact ih s (fun j hj => hd j (List.mem_cons_of_mem i hj))

/-- After a cascade, the cascade below the listed identifiers has happened
to the full depth of the available fuel. -/
theorem cc_done : ∀ (fuel : Nat) (ids : List Nat) (s : St),
    Done fuel (cancelCascade fuel s ids) ids := by
  intro fuel
  induction fuel with
  | zero =>
      intro ids s j hj
      by_cases hcomp : (s j).completed = true
      · exact Or.inl
          (((stLe_cancelCascade 0 ids s) j).completed_eq.trans hcomp)
      · exact Or.inr
          (cc_mem_cancelled 0 ids s j hj (by simpa using hcomp))
  | succ f ihf =>
      intro ids
      induction ids with
      | nil => intro s j hj; cases hj
      | cons i rest ih =>
          intro s j hj
          have hle1 : StLe s (cascadeStep (f + 1) s i) := stLe_cascadeStep _ s i
          have hle2 : StLe (cascadeStep (f + 1) s i)
              (cancelCascade (f + 1) s (i :: rest)) := by
            rw [cc_cons]
            exact stLe_cancelCascade (f + 1) rest _
          rcases List.mem_cons.mp hj with h | h
          · subst h
            by_cases hcomp : (s j).completed = true
            · exact Or.inl
                (((stLe_cancelCascade (f + 1) (j :: rest) s) j).completed_eq.trans
                  hcomp)
            · refine Or.inr ⟨cc_mem_cancelled (f + 1) (j :: rest) s j hj
                (by simpa using hcomp), ?_⟩
              have hchain :
                  ((cancelCascade (f + 1) s (j :: rest)) j).chained
                    = (s j).chained :=
                ((stLe_cancelCascade (f + 1) (j :: rest) s) j).chained_eq
              rw [hchain]
              have hs1 : cascadeStep (f + 1) s j =
                  cancelCascade f
                    (setCtx s j { s j with cancelled := true }) (s j).chained := by
                unfold cascadeStep
                rw [if_neg hcomp]
              have hdone1 : Done f (cascadeStep (f + 1) s j) (s j).chained := by
                rw [hs1]
                exact ihf _ _
              exact done_mono f hle2 _ hdone1
          · rw [cc_cons]
            exact ih (cascadeStep (f + 1) s i) j h

/-! ### Exclusivity invariant and flag permanence -/

/-- No token is ever both cancelled and completed. -/
def Inv (s : St) : Prop :=
  ∀ j, ¬((s j).cancelled = true ∧ (s j).completed = true)

theorem inv_init : Inv initSt := by
  intro j h
  exact absurd h.1 (by simp [initSt, CancelContext.fresh])

theorem inv_of_stLe {s t : St} (h : StLe s t) (hi : Inv s) : Inv t := by
  intro j hj
  obtain ⟨hc, hcm⟩ := hj
  have hcs : (s j).completed = true := (h j).completed_eq.symm.trans hcm
  rcases (h j).cancelled_src hc with h1 | h1
  · exact hi j ⟨h1, hcs⟩
  · simp [hcs] at h1

theorem inv_mark_cancelled (fuel : Nat) (s : St) (i : Nat) (h : Inv s) :
    Inv (mark_cancelled fuel s i).1 := by
  unfold mark_cancelled
  by_cases hcomp : (s i).completed = true
  · rw [if_pos hcomp]
    exact h
  · rw [if_neg hcomp]
    refine inv_of_stLe (stLe_cancelCascade _ _ _) ?_
    intro j hj
    obtain ⟨hc, hcm⟩ := hj
    by_cases hji : j = i
    · subst hji
      rw [setCtx_same] at hcm
      exact hcomp hcm
    · rw [setCtx_other _ _ _ _ hji] at hc hcm
      exact h j ⟨hc, hcm⟩

theorem inv_mark_completed (s : St) (i : Nat) (h : Inv s) :
    Inv (mark_completed s i).1 := by
  by_cases hcanc : (s i).cancelled = true
  · rw [mark_completed_fst_cancelled s i hcanc]
    exact h
  · rw [mark_completed_fst_active s i hcanc]
    intro j hj
    obtain ⟨hc, hcm⟩ := hj
    by_cases hji : j = i
    · subst hji
      rw [setCtx_same] at hc
      exact hcanc hc
    · rw [setCtx_other _ _ _ _ hji] at hc hcm
      exact h j ⟨hc, hcm⟩

theorem inv_chain (fuel : Nat) (s : St) (p c : Nat) (h : Inv s) :
    Inv (chain fuel s p c) := by
  unfold chain
  by_cases hp : (s p).cancelled = true
  · rw [if_pos hp]
    exact inv_mark_cancelled fuel s c h
  · rw [if_neg hp]
    intro j hj
    obtain ⟨hc, hcm⟩ := hj
    by_cases hjp : j = p
    · subst hjp
      rw [setCtx_same] at hc hcm
      exact h j ⟨hc, hcm⟩
    · rw [setCtx_other _ _ _ _ hjp] at hc hcm
      exact h j ⟨hc, hcm⟩

theorem inv_applyOp (fuel : Nat) (s : St) (op : Op) (h : Inv s) :
    Inv (applyOp fuel s op) := by
  cases op with
  | markCancelled i => exact inv_mark_cancelled fuel s i h
  | markCompleted i => exact inv_mark_completed s i h
  | cancelOp i => exact inv_mark_cancelled fuel s i h
  | chainOp p c => exact inv_chain fuel s p c h

theorem inv_run : ∀ (fuel : Nat) (ops : List Op) (s : St),
    Inv s → Inv (run fuel s ops) := by
  intro fuel ops
  induction ops with
  | nil => intro s h; exact h
  | cons op rest ih => intro s h; exact ih _ (inv_applyOp fuel s op h)

/-- Terminal flags only ever go from false to true. -/
def Mono (s t : St) : Prop :=
  ∀ j, ((s j).cancelled = true → (t j).cancelled = true) ∧
       ((s j).completed = true → (t j).completed = true)

theorem mono_refl (s : St) : Mono s s := fun _ => ⟨id, id⟩

theorem mono_trans {s t u : St} (h1 : Mono s t) (h2 : Mono t u) : Mono s u :=
  fun j => ⟨fun h => (h2 j).1 ((h1 j).1 h), fun h => (h2 j).2 ((h1 j).2 h)⟩

theorem mono_of_stLe {s t : St} (h : StLe s t) : Mono s t :=
  fun j => ⟨(h j).cancelled_mono, fun hc => (h j).completed_eq.trans hc⟩

theorem mono_mark_cancelled (fuel : Nat) (s : St) (i : Nat) :
    Mono s (mark_cancelled fuel s i).1 := by
  unfold mark_cancelled
  by_cases hcomp : (s i).completed = true
  · rw [if_pos hcomp]
    exact mono_refl s
  · rw [if_neg hcomp]
    exact mono_trans (mono_of_stLe (stLe_setCancelled s i (by simpa using hcomp)))
      (mono_of_stLe (stLe_cancelCascade _ _ _))

theorem mono_mark_completed (s : St) (i : Nat) :
    Mono s (mark_completed s i).1 := by
  by_cases hcanc : (s i).cancelled = true
  · rw [mark_completed_fst_cancelled s i hcanc]
    exact mono_refl s
  · rw [mark_completed_fst_active s i hcanc]
    intro j
    by_cases hji : j = i
    · subst hji
      rw [setCtx_same]
      exact ⟨fun h => h, fun _ => rfl⟩
    · rw [setCtx_other _ _ _ _ hji]
      exact ⟨id, id⟩

theorem mono_chain (fuel : Nat) (s : St) (p c : Nat) :
    Mono s (chain fuel s p c) := by
  unfold chain
  by_cases hp : (s p).cancelled = true
  · rw [if_pos hp]
    exact mono_mark_cancelled fuel s c
  · rw [if_neg hp]
    intro j
    by_cases hjp : j = p
    · subst hjp
      rw [setCtx_same]
      exact ⟨fun h => h, fun h => h⟩
    · rw [setCtx_other _ _ _ _ hjp]
      exact ⟨id, id⟩

theorem mono_applyOp (fuel : Nat) (s : St) (op : Op) :
    Mono s (applyOp fuel s op) := by
  cases op with
  | markCancelled i => exact mono_mark_cancelled fuel s i
  | markCompleted i => exact mono_mark_completed s i
  | cancelOp i => exact mono_mark_cancelled fuel s i
  | chainOp p c => exact mono_chain fuel s p c

theorem mono_run : ∀ (fuel : Nat) (ops : List Op) (s : St),
    Mono s (run fuel s ops) := by
  intro fuel ops
  induction ops with
  | nil => intro s; exact mono_refl s
  | cons op rest ih =>
      intro s
      exact mono_trans (mono_applyOp fuel s op) (ih _)

/-! ### Consequences at the level of one mark_cancelled call -/

theorem ctx_set_completed_self {c : CancelContext} (h : c.completed = true) :
    { c with completed := true } = c := by
  cases c
  simp_all

theorem setCtx_idem (s : St) (i : Nat) (c c' : CancelContext) :
    setCtx (setCtx s i c) i c' = setCtx s i c' := by
  funext j
  by_cases h : j = i <;> simp [setCtx, h]

/-- A successful `mark_cancelled` sets the flag of its own token. -/
theorem mark_cancelled_sets (fuel : Nat) (s : St) (i : Nat)
    (h : (s i).completed = false) :
    ((mark_cancelled fuel s i).1 i).cancelled = true := by
  rw [mark_cancelled_fst_active fuel s i (by simp [h])]
  exact ((stLe_cancelCascade fuel _ _) i).cancelled_mono (by rw [setCtx_same])

/-- A successful `mark_cancelled` cancels every directly chained child that
is not completed. -/
theorem mark_cancelled_child (fuel : Nat) (s : St) (i c : Nat)
    (h : (s i).completed = false) (hc : c ∈ (s i).chained)
    (hcc : (s c).completed = false) :
    ((mark_cancelled fuel s i).1 c).cancelled = true := by
  rw [mark_cancelled_fst_active fuel s i (by simp [h])]
  refine cc_mem_cancelled fuel _ _ c hc ?_
  by_cases hci : c = i
  · rw [hci, setCtx_same]
    rw [hci] at hcc
    exact hcc
  · rw [setCtx_other _ _ _ _ hci]
    exact hcc

/-! ### Claim theorems -/

/-- Claim C1: starting from fresh tokens, after any sequence of
`mark_cancelled`, `mark_completed`, `cancel` and `chain` operations,
no token is ever both cancelled and completed, and once either terminal
flag is true it remains true under every further sequence of operations. -/
theorem run_terminal_exclusive (fuel : Nat) (ops more : List Op) (i : Nat) :
    ¬((run fuel initSt ops i).cancelled = true
        ∧ (run fuel initSt ops i).completed = true)
    ∧ ((run fuel initSt ops i).cancelled = true →
        (run fuel (run fuel initSt ops) more i).cancelled = true)
    ∧ ((run fuel initSt ops i).completed = true →
        (run fuel (run fuel initSt ops) more i).completed = true) :=
  ⟨inv_run fuel ops initSt inv_init i,
   (mono_run fuel more (run fuel initSt ops) i).1,
   (mono_run fuel more (run fuel initSt ops) i).2⟩

/-- Witness for C1: cancelling token 0 and then attempting to complete it
leaves it cancelled. -/
theorem run_terminal_exclusive_witness :
    (run 1 (run 1 initSt [Op.markCancelled 0]) [Op.markCompleted 0] 0).cancelled
      = true :=
  (run_terminal_exclusive 1 [Op.markCancelled 0] [Op.markCompleted 0] 0).2.1
    (by decide)

/-- Claim C2: `mark_cancelled` on a completed token returns false and leaves
the whole state (flags, chained lists, every other token) unchanged;
otherwise it returns true, sets the token cancelled, and marks every
currently chained child that is not completed as cancelled. -/
theorem mark_cancelled_spec (fuel : Nat) (s : St) (i : Nat) :
    ((s i).completed = true → mark_cancelled fuel s i = (s, false))
    ∧ ((s i).completed = false →
        (mark_cancelled fuel s i).2 = true
        ∧ ((mark_cancelled fuel s i).1 i).cancelled = true
        ∧ (∀ c ∈ (s i).chained, (s c).completed = false →
            ((mark_cancelled fuel s i).1 c).cancelled = true)) := by
  constructor
  · exact fun h => mark_cancelled_completed fuel s i h
  · intro h
    have hne : ¬(s i).completed = true := by simp [h]
    refine ⟨mark_cancelled_snd_active fuel s i hne, ?_, ?_⟩
    · rw [mark_cancelled_fst_active fuel s i hne]
      exact ((stLe_cancelCascade fuel _ _) i).cancelled_mono (by rw [setCtx_same])
    · intro c hc hcc
      rw [mark_cancelled_fst_active fuel s i hne]
      refine cc_mem_cancelled fuel _ _ c hc ?_
      by_cases hci : c = i
      · rw [hci, setCtx_same]
        rw [hci] at hcc
        exact hcc
      · rw [setCtx_other _ _ _ _ hci]
        exact hcc

/-- Witness for C2, the cascading scenario of the claim: parent 0 is
chained to fresh children 1 and 2; cancelling the parent leaves both
children cancelled. -/
theorem mark_cancelled_spec_witness :
    ((mark_cancelled 1
        (setCtx initSt 0 { CancelContext.fresh with chained := [1, 2] }) 0).1
          1).cancelled = true
    ∧ ((mark_cancelled 1
        (setCtx initSt 0 { CancelContext.fresh with chained := [1, 2] }) 0).1
          2).cancelled = true :=
  ⟨((mark_cancelled_spec 1
      (setCtx initSt 0 { CancelContext.fresh with chained := [1, 2] }) 0).2
      (by decide)).2.2 1 (by decide) (by decide),
   ((mark_cancelled_spec 1
      (setCtx initSt 0 { CancelContext.fresh with chained := [1, 2] }) 0).2
      (by decide)).2.2 2 (by decide) (by decide)⟩

/-- Claim C3: `mark_completed` on a cancelled token returns false and leaves
the state unchanged (cancellation wins); otherwise it returns true, sets
`completed`, and changes nothing else on this token or any other. -/
theorem mark_completed_spec (s : St) (i : Nat) :
    ((s i).cancelled = true → mark_completed s i = (s, false))
    ∧ ((s i).cancelled = false →
        (mark_completed s i).2 = true
        ∧ ((mark_completed s i).1 i).completed = true
        ∧ ((mark_completed s i).1 i).cancelled = (s i).cancelled
        ∧ ((mark_completed s i).1 i).chained = (s i).chained
        ∧ (∀ j, j ≠ i → (mark_completed s i).1 j = s j)) := by
  constructor
  · exact fun h => mark_completed_cancelled s i h
  · intro h
    have hne : ¬(s i).cancelled = true := by simp [h]
    refine ⟨mark_completed_snd_active s i hne, ?_, ?_, ?_, ?_⟩
    · rw [mark_completed_fst_active s i hne, setCtx_same]
    · rw [mark_completed_fst_active s i hne, setCtx_same]
    · rw [mark_completed_fst_active s i hne, setCtx_same]
    · intro j hj
      rw [mark_completed_fst_active s i hne, setCtx_other _ _ _ _ hj]

/-- Witness for C3: completing a fresh token reports success and sets the
flag. -/
theorem mark_completed_spec_witness :
    (mark_completed initSt 0).2 = true
    ∧ ((mark_completed initSt 0).1 0).completed = true :=
  ⟨((mark_completed_spec initSt 0).2 (by decide)).1,
   ((mark_completed_spec initSt 0).2 (by decide)).2.1⟩

/-- Claim C4: `chain` on an already-cancelled parent performs one
`mark_cancelled` call on the child during the `chain` call itself — in
particular a child that is not completed is cancelled immediately, with no
further cancellation of the parent — and does not add the child to the
parent chained list; on a parent that is not cancelled it registers the
child by appending it to the chained list, changing nothing else, so that
a later `mark_cancelled` of the parent cascades to the child. -/
theorem chain_spec (fuel : Nat) (s : St) (p c : Nat) :
    ((s p).cancelled = true →
        chain fuel s p c = (mark_cancelled fuel s c).1
        ∧ ((chain fuel s p c) p).chained = (s p).chained
        ∧ ((s c).completed = false → ((chain fuel s p c) c).cancelled = true))
    ∧ ((s p).cancelled = false →
        ((chain fuel s p c) p).chained = (s p).chained ++ [c]
        ∧ (∀ j, j ≠ p → (chain fuel s p c) j = s j)
        ∧ ((s p).completed = false → (s c).completed = false →
            ((mark_cancelled fuel (chain fuel s p c) p).1 c).cancelled
              = true)) := by
  constructor
  · intro h
    refine ⟨chain_parent_cancelled fuel s p c h, ?_, ?_⟩
    · rw [chain_parent_cancelled fuel s p c h]
      by_cases hcomp : (s c).completed = true
      · rw [mark_cancelled_completed fuel s c hcomp]
      · rw [mark_cancelled_fst_active fuel s c hcomp]
        rw [((stLe_cancelCascade fuel _ _) p).chained_eq]
        by_cases hpc : p = c
        · rw [hpc, setCtx_same]
        · rw [setCtx_other _ _ _ _ hpc]
    · intro hcc
      rw [chain_parent_cancelled fuel s p c h]
      exact mark_cancelled_sets fuel s c hcc
  · intro h
    have hne : ¬(s p).cancelled = true := by simp [h]
    refine ⟨?_, ?_, ?_⟩
    · rw [chain_parent_active fuel s p c hne, setCtx_same]
    · intro j hj
      rw [chain_parent_active fuel s p c hne, setCtx_other _ _ _ _ hj]
    · intro hp2 hc2
      have e1 : (chain fuel s p c p).completed = false := by
        rw [chain_parent_active fuel s p c hne, setCtx_same]
        exact hp2
      have e2 : c ∈ (chain fuel s p c p).chained := by
        rw [chain_parent_active fuel s p c hne, setCtx_same]
        exact List.mem_append_right _ (List.mem_singleton_self c)
      have e3 : (chain fuel s p c c).completed = false := by
        by_cases hcp : c = p
        · rw [chain_parent_active fuel s p c hne, hcp, setCtx_same]
          exact hp2
        · rw [chain_parent_active fuel s p c hne, setCtx_other _ _ _ _ hcp]
          exact hc2
      exact mark_cancelled_child fuel (chain fuel s p c) p c e1 e2 e3

/-- Witness for C4, the late-chaining scenario: parent 0 already cancelled,
fresh child 1 chained afterwards is cancelled by the `chain` call itself. -/
theorem chain_spec_witness :
    ((chain 1 (setCtx initSt 0 { CancelContext.fresh with cancelled := true })
        0 1) 1).cancelled = true
    ∧ ((chain 1 (setCtx initSt 0 { CancelContext.fresh with cancelled := true })
        0 1) 0).chained = [] :=
  ⟨((chain_spec 1
      (setCtx initSt 0 { CancelContext.fresh with cancelled := true }) 0 1).1
      (by decide)).2.2 (by decide),
   ((chain_spec 1
      (setCtx initSt 0 { CancelContext.fresh with cancelled := true }) 0 1).1
      (by decide)).2.1⟩

/-- Claim C9: marking a terminal state twice: a second `mark_completed`
right after a successful one returns true again and leaves the whole state
unchanged; a second `mark_cancelled` right after a successful one returns
true again and leaves the whole state, chained children included,
unchanged. -/
theorem mark_idempotent (fuel : Nat) (s : St) (i : Nat) :
    ((s i).cancelled = false →
        mark_completed (mark_completed s i).1 i = ((mark_completed s i).1, true))
    ∧ ((s i).completed = false →
        mark_cancelled fuel (mark_cancelled fuel s i).1 i
          = ((mark_cancelled fuel s i).1, true)) := by
  constructor
  · intro h
    have hne : ¬(s i).cancelled = true := by simp [h]
    rw [mark_completed_fst_active s i hne]
    have h2 : ¬((setCtx s i { s i with completed := true }) i).cancelled = true := by
      rw [setCtx_same]
      exact hne
    rw [mark_completed_active _ i h2]
    have e1 : { (setCtx s i { s i with completed := true }) i with
        completed := true } = setCtx s i { s i with completed := true } i := by
      rw [setCtx_same]
    rw [e1, setCtx_same, setCtx_idem]
  · intro h
    have hne : ¬(s i).completed = true := by simp [h]
    rw [mark_cancelled_fst_active fuel s i hne]
    have e_comp :
        ((cancelCascade fuel (setCtx s i { s i with cancelled := true })
          (s i).chained) i).completed = false := by
      rw [((stLe_cancelCascade fuel _ _) i).completed_eq, setCtx_same]
      exact h
    rw [mark_cancelled_active fuel _ i (by simp [e_comp])]
    have e_canc :
        ((cancelCascade fuel (setCtx s i { s i with cancelled := true })
          (s i).chained) i).cancelled = true :=
      ((stLe_cancelCascade fuel _ _) i).cancelled_mono (by rw [setCtx_same])
    rw [ctx_set_cancelled_self e_canc, setCtx_self]
    have e_ch :
        ((cancelCascade fuel (setCtx s i { s i with cancelled := true })
          (s i).chained) i).chained = (s i).chained := by
      rw [((stLe_cancelCascade fuel _ _) i).chained_eq, setCtx_same]
    rw [e_ch, cc_done_fix fuel (s i).chained _ (cc_done fuel (s i).chained _)]

/-- Witness for C9 on a fresh token. -/
theorem mark_idempotent_witness :
    mark_completed (mark_completed initSt 0).1 0 = ((mark_completed initSt 0).1, true)
    ∧ mark_cancelled 1 (mark_cancelled 1 initSt 0).1 0
        = ((mark_cancelled 1 initSt 0).1, true) :=
  ⟨(mark_idempotent 1 initSt 0).1 (by decide),
   (mark_idempotent 1 initSt 0).2 (by decide)⟩

/-- Claim C10: cancelling a parent with an already-completed chained child
still succeeds and cancels the parent, leaves the completed child entirely
unchanged (in particular still completed and with its `cancelled` flag
untouched), and still cascades to every other chained child that is not
completed. -/
theorem cascade_skips_completed_child (fuel : Nat) (s : St) (p c : Nat)
    (hp : (s p).completed = false) (hc : (s c).completed = true)
    (hmem : c ∈ (s p).chained) :
    (mark_cancelled fuel s p).2 = true
    ∧ ((mark_cancelled fuel s p).1 p).cancelled = true
    ∧ (mark_cancelled fuel s p).1 c = s c
    ∧ (∀ j ∈ (s p).chained, (s j).completed = false →
        ((mark_cancelled fuel s p).1 j).cancelled = true) := by
  have hne : ¬(s p).completed = true := by simp [hp]
  refine ⟨mark_cancelled_snd_active fuel s p hne,
    mark_cancelled_sets fuel s p hp, ?_, ?_⟩
  · have hcp : ¬(c = p) := by
      intro e
      rw [e, hp] at hc
      cases hc
    rw [mark_cancelled_fst_active fuel s p hne]
    have hu : ((setCtx s p { s p with cancelled := true }) c).completed = true := by
      rw [setCtx_other _ _ _ _ hcp]
      exact hc
    rw [cc_completed_fixed fuel _ _ c hu, setCtx_other _ _ _ _ hcp]
  · intro j hj hjc
    exact mark_cancelled_child fuel s p j hp hj hjc

/-- Witness for C10: parent 0 chained to completed child 1 and fresh child
2; cancelling the parent succeeds, leaves child 1 untouched and cancels
child 2. -/
theorem cascade_skips_completed_child_witness :
    (mark_cancelled 2
      (setCtx (setCtx initSt 0 { CancelContext.fresh with chained := [1, 2] })
        1 { CancelContext.fresh with completed := true }) 0).2 = true
    ∧ (mark_cancelled 2
        (setCtx (setCtx initSt 0 { CancelContext.fresh with chained := [1, 2] })
          1 { CancelContext.fresh with completed := true }) 0).1 1
        = { CancelContext.fresh with completed := true }
    ∧ ((mark_cancelled 2
        (setCtx (setCtx initSt 0 { CancelContext.fresh with chained := [1, 2] })
          1 { CancelContext.fresh with completed := true }) 0).1 2).cancelled
        = true := by
  refine ⟨(cascade_skips_completed_child 2
      (setCtx (setCtx initSt 0 { CancelContext.fresh with chained := [1, 2] })
        1 { CancelContext.fresh with completed := true }) 0 1
      (by decide) (by decide) (by decide)).1, ?_, ?_⟩
  · have e := (cascade_skips_completed_child 2
      (setCtx (setCtx initSt 0 { CancelContext.fresh with chained := [1, 2] })
        1 { CancelContext.fresh with completed := true }) 0 1
      (by decide) (by decide) (by decide)).2.2.1
    rw [e]
    decide
  · exact (cascade_skips_completed_child 2
      (setCtx (setCtx initSt 0 { CancelContext.fresh with chained := [1, 2] })
        1 { CancelContext.fresh with completed := true }) 0 1
      (by decide) (by decide) (by decide)).2.2.2 2 (by decide) (by decide)

/-! ### Clock, relative timeouts and fault classification -/

/-- `get_deadline` (lines 106-115): absolute deadline from an optional
relative timeout, with `now` the monotonic clock instant at the call. -/
def get_deadline (timeout : Option ℚ) (now : ℚ) : Option ℚ :=
  match timeout with
  | none => none
  | some t => some (now + t)

/-- The two faults an enforcer can raise on cancellation. -/
inductive Fault where
  | timeoutErr
  | cancelledErr
  deriving DecidableEq, Repr

/-- The fault constructed by the exit path of `cancel_async_at`
(lines 139-143) when the scope was cancelled: `TimeoutError()` when the
deadline is set and `time.monotonic() >= deadline` holds at fault
construction, else `CancelledError()`. -/
def asyncExitFault (deadline : Option ℚ) (now : ℚ) : Fault :=
  match deadline with
  | some d => if d ≤ now then Fault.timeoutErr else Fault.cancelledErr
  | none => Fault.cancelledErr

/-- The fault constructed by `raise_alarm_as_timeout` inside
`_alarm_based_timeout` (lines 240-249): with `entry` the clock instant at
which `get_deadline` ran, the handler raises `TimeoutError()` when
`timeout is not None and time.monotonic() >= deadline`, else
`CancelledError()`. -/
def alarmFault (timeout : Option ℚ) (entry now : ℚ) : Fault :=
  match timeout, get_deadline timeout entry with
  | some _, some d => if d ≤ now then Fault.timeoutErr else Fault.cancelledErr
  | _, _ => Fault.cancelledErr

/-- The relative timeout computed at entry of `cancel_async_at`
(line 129): `max(0, deadline - time.monotonic()) if deadline else None`.
The Python condition is truthiness, so both a missing deadline and a
deadline equal to `0.0` take the `None` branch. -/
def asyncTimeoutAt (deadline : Option ℚ) (now : ℚ) : Option ℚ :=
  match deadline with
  | none => none
  | some d => if d = 0 then none else some (max 0 (d - now))

/-- The relative timeout computed at entry of `cancel_sync_at` (line 175):
`max(0, deadline - time.monotonic()) if deadline is not None else None`. -/
def syncTimeoutAt (deadline : Option ℚ) (now : ℚ) : Option ℚ :=
  match deadline with
  | none => none
  | some d => some (max 0 (d - now))

/-- The `remaining` function as the spec words it (section 4.1):
`max(0, deadline - now())` when the deadline is set, else null.  Stated
separately so the computations the code performs can be compared with the
spec. -/
def remainingSpec (deadline : Option ℚ) (now : ℚ) : Option ℚ :=
  match deadline with
  | none => none
  | some d => some (max 0 (d - now))

/-! ### Enforcement resources created on enforcer entry -/

/-- The enforcement resources `_alarm_based_timeout` (lines 221-270)
creates on entry: the `SIGALRM` handler registration (line 257, executed
unconditionally) and the interval timer (line 262, armed only when a
timeout is given). -/
structure AlarmSetup where
  handlerInstalled : Bool
  timerArmed : Bool
  deriving DecidableEq, Repr

/-- The entry phase of `_alarm_based_timeout`: raise `ValueError` when not
on the main thread (lines 234-236), before the handler is installed or any
timer armed; otherwise install the handler and arm the timer exactly when
the timeout is not null. -/
def alarm_based_timeout (isMainThread : Bool) (timeout : Option ℚ) :
    Except String AlarmSetup :=
  if !isMainThread then
    Except.error "Alarm based timeouts can only be used in the main thread."
  else
    Except.ok { handlerInstalled := true, timerArmed := timeout.isSome }

/-- The enforcement resources `_watcher_thread_based_timeout`
(lines 273-306) creates on entry: the daemon enforcer thread is spawned
only when a timeout is given (lines 298-300). -/
structure WatcherSetup where
  enforcerSpawned : Bool
  deriving DecidableEq, Repr

def watcher_thread_based_timeout (timeout : Option ℚ) : WatcherSetup :=
  { enforcerSpawned := timeout.isSome }

/-- Counterexample to claim C5 as stated: at the instant `now = 5` with
deadline `5` the deadline has not strictly passed (`5 < 5` is false), yet
both the cooperative exit path and the alarm handler construct
`TimeoutError`. -/
theorem fault_at_exact_deadline :
    asyncExitFault (some 5) 5 = Fault.timeoutErr
    ∧ alarmFault (some 5) 0 5 = Fault.timeoutErr
    ∧ ¬((5 : ℚ) < 5) := by
  refine ⟨by decide, ?_, by norm_num⟩
  show (if (0 : ℚ) + 5 ≤ 5 then Fault.timeoutErr else Fault.cancelledErr)
    = Fault.timeoutErr
  norm_num

/-- Claim C5 amended: the fault raised is `TimeoutError` exactly when the
deadline is set and has been reached or passed (`now ≥ deadline`, not
necessarily strictly) at the moment of fault construction; otherwise the
fault is `CancelledError`. -/
theorem fault_classification (dl tm : Option ℚ) (entry now : ℚ) :
    (asyncExitFault dl now = Fault.timeoutErr ↔ ∃ d, dl = some d ∧ d ≤ now)
    ∧ (alarmFault tm entry now = Fault.timeoutErr ↔
        ∃ t, tm = some t ∧ entry + t ≤ now) := by
  constructor
  · cases dl with
    | none => simp [asyncExitFault]
    | some d =>
        by_cases h : d ≤ now
        · simp [asyncExitFault, h]
        · simp [asyncExitFault, h]
  · cases tm with
    | none => simp [alarmFault]
    | some t =>
        by_cases h : entry + t ≤ now
        · simp [alarmFault, get_deadline, h]
        · simp [alarmFault, get_deadline, h]

/-- Witness for the amended C5 at concrete instants past and before the
deadline. -/
theorem fault_classification_witness :
    asyncExitFault (some 5) 6 = Fault.timeoutErr
    ∧ alarmFault (some 1) 0 6 = Fault.timeoutErr :=
  ⟨(fault_classification (some 5) (some 1) 0 6).1.mpr ⟨5, rfl, by norm_num⟩,
   (fault_classification (some 5) (some 1) 0 6).2.mpr ⟨1, rfl, by norm_num⟩⟩

/-- Claim C6: the deadline-based entry points compute the relative timeout
`max(0, D - now())` for a set deadline `D` and null for a null deadline.
`cancel_sync_at` does exactly this.  `cancel_async_at` tests the deadline
by truthiness (`if deadline`), so the deadline `0.0` — which the
`anyio.CancelScope` built on the next line of the same function treats as
a real, already-expired deadline — yields a null timeout instead of
`max(0, 0 - now()) = 0`. -/
theorem async_timeout_zero_deadline :
    asyncTimeoutAt (some 0) 1 = none
    ∧ remainingSpec (some 0) 1 = some 0
    ∧ (∀ (dl : Option ℚ) (now : ℚ), syncTimeoutAt dl now = remainingSpec dl now)
    ∧ (∀ (d now : ℚ), d ≠ 0 →
        asyncTimeoutAt (some d) now = remainingSpec (some d) now) := by
  refine ⟨rfl, ?_, ?_, ?_⟩
  · show some (max 0 ((0 : ℚ) - 1)) = some 0
    norm_num
  · intro dl now
    cases dl <;> rfl
  · intro d now hd
    simp [asyncTimeoutAt, remainingSpec, hd]

/-- Witness for C6 on a nonzero deadline, where the async computation does
agree with the spec. -/
theorem async_timeout_zero_deadline_witness :
    asyncTimeoutAt (some 5) 1 = remainingSpec (some 5) 1 :=
  async_timeout_zero_deadline.2.2.2 5 1 (by norm_num)

/-- Claim C7: invoking the alarm-based enforcer from any thread other than
the main thread raises the precondition error synchronously at call time,
for every timeout value including null; no handler is installed and no
timer is armed (no `AlarmSetup` is produced). -/
theorem alarm_requires_main_thread (timeout : Option ℚ) :
    alarm_based_timeout false timeout =
      Except.error "Alarm based timeouts can only be used in the main thread." :=
  rfl

/-- Counterexample to claim C8 as stated: entering the alarm enforcer on
the main thread with a null timeout still registers the process-wide
`SIGALRM` handler (line 257 runs unconditionally), contradicting the
claim that no signal-handler registration occurs for unbounded scopes. -/
theorem alarm_unbounded_installs_handler :
    (alarm_based_timeout true none).map AlarmSetup.handlerInstalled
      = Except.ok true :=
  rfl

/-- Claim C8 amended: with a null timeout no timer is armed and no watcher
thread is spawned, but the alarm enforcer still installs its signal
handler (needed for the manual `cancel()` path, which raises `SIGALRM`). -/
theorem unbounded_no_timer_no_watcher :
    alarm_based_timeout true none
      = Except.ok { handlerInstalled := true, timerArmed := false }
    ∧ (watcher_thread_based_timeout none).enforcerSpawned = false :=
  ⟨rfl, rfl⟩

end Timeouts
